import Mathlib

/-!
Verification development for the coder-docs-generator repository.

The repository resolves a content manifest (a tree of markdown routes) into
a URL-path index, a navigation tree and sanitized page content.  The core
logic lives in `src/pages/[[...slug]].tsx` (with near-duplicate lineages in
`src/unnamed/part_001` and `src/unnamed/part_002`).  Below we give a shallow
embedding of that logic: strings are modelled as `List Char` pipelines
(wrapped into `String` at the API boundary), JavaScript objects used as
string-keyed records are modelled as association lists with JS assignment
semantics (update-in-place on existing key, append otherwise), and the
front-matter library `fm` is modelled as an environment mapping a file path
to its parsed attributes, in which a `title` may be absent (in TypeScript
the declared type is `string` but at runtime a document without a title
yields `undefined`).
-/

namespace CoderDocs

/-- Does `l` start with the pattern `pat`? (JS `String.startsWith` on char
lists; also the building block for substring search.) -/
def startsWithL : List Char → List Char → Bool
  | _, [] => true
  | [], _ :: _ => false
  | c :: cs, p :: ps => c == p && startsWithL cs ps

/-- Does `pat` occur as a contiguous substring of `l`? -/
def containsSub (pat : List Char) : List Char → Bool
  | [] => startsWithL [] pat
  | c :: cs => startsWithL (c :: cs) pat || containsSub pat cs

/-- Does `l` end with the pattern `pat`? (JS `String.endsWith`.) -/
def endsWithL (l pat : List Char) : Bool :=
  startsWithL l.reverse pat.reverse

/-- JS `filePath.replace(/\.md/g, "")`: delete every (non-overlapping,
left-to-right) occurrence of the three characters `.md`. -/
def stripMd : List Char → List Char
  | '.' :: 'm' :: 'd' :: rest => stripMd rest
  | c :: cs => c :: stripMd cs
  | [] => []

/-- JS `urlPath.replace("./", "")` under the guard `startsWith("./")`:
the first occurrence is the leading one, so the leading `./` is dropped. -/
def dropDotSlash (l : List Char) : List Char :=
  if startsWithL l ['.', '/'] then l.drop 2 else l

/-- JS `urlPath.replace("index", "")`: delete the FIRST occurrence of the
five characters `index` (plain-string `String.replace` replaces only the
first match). -/
def replaceFirstIndexOcc : List Char → List Char
  | 'i' :: 'n' :: 'd' :: 'e' :: 'x' :: rest => rest
  | c :: cs => c :: replaceFirstIndexOcc cs
  | [] => []

/-- The `removeIndexFilename` helper of `src/unnamed/part_001` and the
inlined equivalent of the main file: if the path ends with `index`,
delete the first occurrence of the substring `index`. -/
def removeIndexFilename (l : List Char) : List Char :=
  if endsWithL l ['i', 'n', 'd', 'e', 'x'] then replaceFirstIndexOcc l else l

/-- JS `urlPath.replace(/\/+$/, "")` under the guard `endsWith("/")`:
delete every trailing slash. -/
def removeTrailingSlash (l : List Char) : List Char :=
  if endsWithL l ['/'] then (l.reverse.dropWhile (fun c => c == '/')).reverse
  else l

/-- The path normalizer `transformFilePathToUrlPath` of
`src/pages/[[...slug]].tsx`: strip every `.md`, strip a leading `./`,
strip `index` (first occurrence) when the path ends with `index`, then
strip trailing slashes. -/
def transformFilePathToUrlPath (filePath : String) : String :=
  String.mk (removeTrailingSlash (removeIndexFilename (dropDotSlash (stripMd filePath.data))))

example : transformFilePathToUrlPath "./getting-started/index.md" = "getting-started" := by decide
example : transformFilePathToUrlPath "./index.md" = "" := by decide
example : transformFilePathToUrlPath "guides/deploy.md" = "guides/deploy" := by decide
example : transformFilePathToUrlPath "a/b/index.md/index.md" = "a/b//index" := by decide
example : transformFilePathToUrlPath "./reindex.md" = "re" := by decide
example : transformFilePathToUrlPath "a/index.md" = "a" := by decide
example : transformFilePathToUrlPath "a.md" = "a" := by decide

/-!
The manifest route tree.  In TypeScript, `Route = { path; children?: Route[] }`:
the `children` field is either absent or an array.  We mirror the optional
array with a dedicated constructor pair so that all recursions stay
structural (`RouteChildren.none` models an absent field, `RouteChildren.some`
a present array — note a present empty array is truthy in JS and is distinct
from an absent field, which the embedding preserves).
-/

mutual
inductive Route : Type where
| mk : String → RouteChildren → Route
inductive RouteChildren : Type where
| none : RouteChildren
| some : RouteList → RouteChildren
inductive RouteList : Type where
| nil : RouteList
| cons : Route → RouteList → RouteList
end

/-- The `path` field of a route. -/
def Route.path : Route → String
  | .mk p _ => p

/-- `Manifest = { versions: string[]; routes: Route[] }`. -/
structure Manifest where
  versions : List String
  routes : RouteList

/-- A JS object used as a string-keyed record, as in
`Record<UrlPath, FilePath>`: an association list in key-insertion order. -/
abbrev RecordS := List (String × String)

/-- JS property assignment `obj[k] = v`: if the key is already present its
value is updated in place (the key keeps its original position), otherwise
the new key is appended at the end.  This matches JS own-property insertion
order for non-integer-like string keys. -/
def recSet : RecordS → String → String → RecordS
  | [], k, v => [(k, v)]
  | (k0, v0) :: rest, k, v =>
      if k0 == k then (k0, v) :: rest else (k0, v0) :: recSet rest k v

/-- JS property read `obj[k]`, `undefined` modelled as `none`. -/
def recGet : RecordS → String → Option String
  | [], _ => Option.none
  | (k0, v0) :: rest, k => if k0 == k then Option.some v0 else recGet rest k

/-- JS `Object.keys`. -/
def recKeys (r : RecordS) : List String := r.map Prod.fst

/-!
`mapRoutes` walks the route tree depth-first pre-order and writes
`paths[transformFilePathToUrlPath(route.path)] = route.path` for every
route, then recurses into `route.children` when present.
-/

mutual
def addPathsRoute : RecordS → Route → RecordS
  | acc, .mk p .none => recSet acc (transformFilePathToUrlPath p) p
  | acc, .mk p (.some cs) => addPathsList (recSet acc (transformFilePathToUrlPath p) p) cs
def addPathsList : RecordS → RouteList → RecordS
  | acc, .nil => acc
  | acc, .cons r rs => addPathsList (addPathsRoute acc r) rs
end

/-- `mapRoutes` of `src/pages/[[...slug]].tsx`: build the URL-path → source
path record from the manifest. -/
def mapRoutes (m : Manifest) : RecordS :=
  addPathsList [] m.routes

/-!
The depth-first pre-order listing of all `sourcePath`s of the route tree;
this is exactly the order in which `mapRoutes` (and `getNavigation`) visit
routes.
-/

mutual
def preorderPathsRoute : Route → List String
  | .mk p .none => [p]
  | .mk p (.some cs) => p :: preorderPathsList cs
def preorderPathsList : RouteList → List String
  | .nil => []
  | .cons r rs => preorderPathsRoute r ++ preorderPathsList rs
end

/-- The pre-order routes of a manifest whose normalized URL path is `u`. -/
def collidingPaths (m : Manifest) (u : String) : List String :=
  (preorderPathsList m.routes).filter (fun p => transformFilePathToUrlPath p == u)

/-- A two-route manifest in which both routes normalize to the URL path
`a`: `a/index.md` and `a.md`. -/
def manifestColl : Manifest :=
  ⟨["v1"], .cons (.mk "a/index.md" .none) (.cons (.mk "a.md" .none) .nil)⟩

example : mapRoutes manifestColl = [("a", "a.md")] := by decide
example : preorderPathsList manifestColl.routes = ["a/index.md", "a.md"] := by decide
example : collidingPaths manifestColl "a" = ["a/index.md", "a.md"] := by decide

/-- Reading a key after a JS assignment: the assigned key now reads the new
value, every other key is unaffected. -/
theorem recGet_recSet (acc : RecordS) (k v u : String) :
    recGet (recSet acc k v) u = if k == u then Option.some v else recGet acc u := by
  induction acc with
  | nil =>
      by_cases h : k = u <;> simp_all [recSet, recGet]
  | cons kv rest ih =>
      obtain ⟨k0, v0⟩ := kv
      by_cases h0 : k0 = k
      · subst h0
        by_cases hu : k0 = u <;> simp_all [recSet, recGet]
      · by_cases hu0 : k0 = u <;> by_cases hu : k = u <;>
          simp_all [recSet, recGet]

/-- One `mapRoutes` loop body: write the normalized path of `p` to the
record. -/
def pathStep (acc : RecordS) (p : String) : RecordS :=
  recSet acc (transformFilePathToUrlPath p) p

mutual
theorem addPathsRoute_eq_foldl : ∀ (acc : RecordS) (r : Route),
    addPathsRoute acc r = List.foldl pathStep acc (preorderPathsRoute r)
  | acc, .mk p .none => by
      simp [addPathsRoute, preorderPathsRoute, pathStep]
  | acc, .mk p (.some cs) => by
      simp [addPathsRoute, preorderPathsRoute, pathStep,
        addPathsList_eq_foldl _ cs]
theorem addPathsList_eq_foldl : ∀ (acc : RecordS) (rs : RouteList),
    addPathsList acc rs = List.foldl pathStep acc (preorderPathsList rs)
  | _, .nil => by
      simp [addPathsList, preorderPathsList]
  | acc, .cons r rs => by
      simp [addPathsList, preorderPathsList, List.foldl_append,
        addPathsRoute_eq_foldl acc r, addPathsList_eq_foldl _ rs]
end

/-- `getLast?` of a cons, expressed through the tail. -/
theorem getLast?_cons_eq (a : String) (l : List String) :
    (a :: l).getLast? = match l.getLast? with
      | Option.some w => Option.some w
      | Option.none => Option.some a := by
  cases l with
  | nil => simp
  | cons b l =>
      rw [List.getLast?_cons_cons]
      cases h : (b :: l).getLast? with
      | none => simp [List.getLast?_eq_none_iff] at h
      | some w => simp

/-- Folding the `mapRoutes` loop body over a list of source paths:
a lookup returns the last written colliding path, or reads through to the
initial record. -/
theorem recGet_foldl (ps : List String) (acc : RecordS) (u : String) :
    recGet (List.foldl pathStep acc ps) u =
      match (ps.filter (fun p => transformFilePathToUrlPath p == u)).getLast? with
      | Option.some v => Option.some v
      | Option.none => recGet acc u := by
  induction ps generalizing acc with
  | nil => simp
  | cons p ps ih =>
      simp only [List.foldl_cons, List.filter_cons]
      rw [ih]
      cases hp : (transformFilePathToUrlPath p == u) with
      | true =>
          simp only [if_true]
          rw [getLast?_cons_eq]
          cases hfl : (ps.filter (fun q => transformFilePathToUrlPath q == u)).getLast? with
          | none => simp [pathStep, recGet_recSet, hp]
          | some w => simp
      | false =>
          simp only [Bool.false_eq_true, if_false]
          cases hfl : (ps.filter (fun q => transformFilePathToUrlPath q == u)).getLast? with
          | none => simp [pathStep, recGet_recSet, hp]
          | some w => simp

/-- Master characterization of the route index: looking up a URL path in
`mapRoutes m` yields the source path of the LAST pre-order route that
normalizes to it (or nothing when no route does). -/
theorem recGet_mapRoutes (m : Manifest) (u : String) :
    recGet (mapRoutes m) u = (collidingPaths m u).getLast? := by
  rw [mapRoutes, addPathsList_eq_foldl, recGet_foldl, collidingPaths]
  cases h : ((preorderPathsList m.routes).filter
      (fun p => transformFilePathToUrlPath p == u)).getLast? with
  | none => simp [recGet]
  | some v => rfl

/-- A `getLast?` hit is a member of the list. -/
theorem mem_of_getLast?_eq (l : List String) (a : String)
    (h : l.getLast? = Option.some a) : a ∈ l := by
  have hm : a ∈ l.getLast? := Option.mem_def.mpr h
  obtain ⟨hne, rfl⟩ := List.mem_getLast?_eq_getLast hm
  exact List.getLast_mem hne

/-- When the images of a list under `f` are pairwise distinct, filtering the
list for the image of a member returns exactly that member. -/
theorem filter_beq_eq_singleton (l : List String) (f : String → String)
    (hnd : (l.map f).Nodup) (a : String) (ha : a ∈ l) :
    l.filter (fun x => f x == f a) = [a] := by
  have hcount : (l.map f).count (f a) ≤ 1 := List.nodup_iff_count_le_one.mp hnd (f a)
  have hlen : (l.filter (fun x => f x == f a)).length ≤ 1 := by
    rw [← List.countP_eq_length_filter]
    calc l.countP (fun x => f x == f a) = (l.map f).count (f a) := by
          rw [List.count, List.countP_map]; rfl
      _ ≤ 1 := hcount
  have hmem : a ∈ l.filter (fun x => f x == f a) :=
    List.mem_filter.mpr ⟨ha, by simp⟩
  have hne : l.filter (fun x => f x == f a) ≠ [] := List.ne_nil_of_mem hmem
  have h1 : (l.filter (fun x => f x == f a)).length = 1 := by
    have := List.length_pos.mpr hne
    omega
  obtain ⟨b, hb⟩ := List.length_eq_one.mp h1
  rw [hb] at hmem ⊢
  simp at hmem
  rw [hmem]

/-- JS `urlPath.split("/")` on char lists: split at every slash, keeping
empty segments; the empty string splits to `[""]`. -/
def splitSlashAux : List Char → List Char → List (List Char)
  | [], cur => [cur.reverse]
  | '/' :: cs, _cur => _cur.reverse :: splitSlashAux cs []
  | c :: cs, cur => splitSlashAux cs (c :: cur)

/-- JS `urlPath.split("/")` at the `String` level. -/
def urlSplit (s : String) : List String :=
  (splitSlashAux s.data []).map String.mk

/-- `getStaticPaths` of `src/pages/[[...slug]].tsx`: one slug (segment
list) per key of the route index, obtained by splitting the URL path on
`/`. -/
def getStaticPaths (m : Manifest) : List (List String) :=
  (recKeys (mapRoutes m)).map (fun u => urlSplit u)

/-- The end-to-end example manifest: a root route `index.md` with one child
route `guides/deploy.md`. -/
def manifestEx : Manifest :=
  ⟨["v1"], .cons (.mk "index.md" (.some (.cons (.mk "guides/deploy.md" .none) .nil))) .nil⟩

/-- Claim C1 is false on the code: in `manifestColl` the two distinct
routes `a/index.md` and `a.md` both normalize to the URL path `a`, yet
`mapRoutes` does not fail — it returns a plain record with the single
entry `("a", "a.md")`, the earlier route's entry having been silently
overwritten (no `RouteCollisionError` exists in the code). -/
theorem C1_counterexample :
    transformFilePathToUrlPath "a/index.md" = "a" ∧
    transformFilePathToUrlPath "a.md" = "a" ∧
    "a/index.md" ≠ "a.md" ∧
    mapRoutes manifestColl = [("a", "a.md")] :=
  ⟨by decide, by decide, by decide, by decide⟩

/-- Claim C1 (amended): for every manifest in which at least two distinct
pre-order routes normalize to the same URL path `u`, `mapRoutes` returns
normally, and the resulting index maps `u` to the source path of the last
colliding route in depth-first pre-order; the entries of earlier colliding
routes are silently overwritten. -/
theorem C1_amended_theorem (m : Manifest) (u : String)
    (h : 2 ≤ (collidingPaths m u).length) :
    ∃ v, recGet (mapRoutes m) u = Option.some v ∧
      (collidingPaths m u).getLast? = Option.some v := by
  have hne : collidingPaths m u ≠ [] := by
    intro hnil
    rw [hnil] at h
    simp at h
  refine ⟨(collidingPaths m u).getLast hne, ?_, ?_⟩
  · rw [recGet_mapRoutes, List.getLast?_eq_getLast_of_ne_nil hne]
  · rw [List.getLast?_eq_getLast_of_ne_nil hne]

/-- Witness for the amended claim C1 at the concrete colliding manifest. -/
theorem C1_amended_witness :
    2 ≤ (collidingPaths manifestColl "a").length ∧
    (∃ v, recGet (mapRoutes manifestColl) "a" = Option.some v ∧
      (collidingPaths manifestColl "a").getLast? = Option.some v) :=
  ⟨by decide, C1_amended_theorem manifestColl "a" (by decide)⟩

/-- Claim C5: for a manifest in which no two routes normalize to the same
URL path, `mapRoutes` succeeds; the normalized path of every pre-order
route looks up to exactly that route's source path, and conversely every
entry of the index is a route of the manifest whose key is the
normalization of its value. -/
theorem C5_theorem (m : Manifest)
    (hnd : ((preorderPathsList m.routes).map transformFilePathToUrlPath).Nodup) :
    (∀ p ∈ preorderPathsList m.routes,
      recGet (mapRoutes m) (transformFilePathToUrlPath p) = Option.some p) ∧
    (∀ k v, recGet (mapRoutes m) k = Option.some v →
      v ∈ preorderPathsList m.routes ∧ transformFilePathToUrlPath v = k) := by
  constructor
  · intro p hp
    rw [recGet_mapRoutes, collidingPaths,
      filter_beq_eq_singleton _ _ hnd p hp]
    rfl
  · intro k v hv
    rw [recGet_mapRoutes] at hv
    have hm : v ∈ collidingPaths m k := mem_of_getLast?_eq _ _ hv
    have hf := List.mem_filter.mp hm
    exact ⟨hf.1, by simpa using hf.2⟩

/-- Witness for claim C5 at the collision-free example manifest. -/
theorem C5_witness :
    ((preorderPathsList manifestEx.routes).map transformFilePathToUrlPath).Nodup ∧
    recGet (mapRoutes manifestEx) (transformFilePathToUrlPath "guides/deploy.md") =
      Option.some "guides/deploy.md" :=
  ⟨by decide, (C5_theorem manifestEx (by decide)).1 "guides/deploy.md" (by decide)⟩

/-- Claim C7: `getStaticPaths` emits one entry per key of the route index,
each URL path split on `/`; the empty (root) URL path is the one-element
segment list containing the empty string; and for the manifest with root
route `index.md` and child route `guides/deploy.md` the enumerated URL
paths are `""` and `"guides/deploy"`. -/
theorem C7_theorem :
    (∀ m : Manifest, getStaticPaths m = (recKeys (mapRoutes m)).map (fun u => urlSplit u)) ∧
    urlSplit "" = [""] ∧
    recKeys (mapRoutes manifestEx) = ["", "guides/deploy"] ∧
    getStaticPaths manifestEx = [[""], ["guides", "deploy"]] :=
  ⟨fun _ => rfl, by decide, by decide, by decide⟩

/-- Claim C9: when two or more distinct routes normalize to the same URL
path `u`, `mapRoutes` returns normally (the lookup at `u` is defined) and
the index maps `u` to the source path of the colliding route visited last
in depth-first pre-order traversal. -/
theorem C9_theorem (m : Manifest) (u : String)
    (h : 2 ≤ (collidingPaths m u).length) :
    (∃ v, recGet (mapRoutes m) u = Option.some v) ∧
    recGet (mapRoutes m) u = (collidingPaths m u).getLast? := by
  have hne : collidingPaths m u ≠ [] := by
    intro hnil
    rw [hnil] at h
    simp at h
  constructor
  · exact ⟨(collidingPaths m u).getLast hne,
      by rw [recGet_mapRoutes, List.getLast?_eq_getLast_of_ne_nil hne]⟩
  · exact recGet_mapRoutes m u

/-- A second colliding manifest: `./index.md` and `index.md` both normalize
to the root URL path. -/
def manifestCollRoot : Manifest :=
  ⟨["v1"], .cons (.mk "./index.md" .none) (.cons (.mk "index.md" .none) .nil)⟩

/-- Witness for claim C9 at a concrete colliding manifest. -/
theorem C9_witness :
    2 ≤ (collidingPaths manifestCollRoot "").length ∧
    ((∃ v, recGet (mapRoutes manifestCollRoot) "" = Option.some v) ∧
      recGet (mapRoutes manifestCollRoot) "" = (collidingPaths manifestCollRoot "").getLast?) :=
  ⟨by decide, C9_theorem manifestCollRoot "" (by decide)⟩

/-- Claim C2 fails on the code: the normalizer is gated by
`endsWith("index")` but then blindly removes the FIRST occurrence of the
substring `index` (`urlPath.replace("index", "")`), so a segment such as
`reindex`, which merely ends in those letters, is corrupted: the source
path `./reindex.md` normalizes to `re`, not `reindex`.  The spec itself
flags this blind-substring behavior as a latent defect of the code. -/
theorem C2_code_eval :
    transformFilePathToUrlPath "./reindex.md" = "re" ∧
    transformFilePathToUrlPath "./reindex.md" ≠ "reindex" :=
  ⟨by decide, by decide⟩

/-- Claim C3 is false on the code at its fourth concrete case: the code
removes the FIRST `index` occurrence (not the trailing `/index`), so
`a/b/index.md/index.md` normalizes to `a/b//index`, not `a/b`. -/
theorem C3_counterexample :
    transformFilePathToUrlPath "a/b/index.md/index.md" = "a/b//index" ∧
    transformFilePathToUrlPath "a/b/index.md/index.md" ≠ "a/b" :=
  ⟨by decide, by decide⟩

/-- Claim C3 (amended): the first three concrete normalization cases hold
as claimed; the fourth input normalizes to `a/b//index` (both `.md`
occurrences removed, then the first — not the trailing — `index`
occurrence removed). -/
theorem C3_amended_theorem :
    transformFilePathToUrlPath "./getting-started/index.md" = "getting-started" ∧
    transformFilePathToUrlPath "./index.md" = "" ∧
    transformFilePathToUrlPath "guides/deploy.md" = "guides/deploy" ∧
    transformFilePathToUrlPath "a/b/index.md/index.md" = "a/b//index" :=
  ⟨by decide, by decide, by decide, by decide⟩

/-!
The navigation tree.  `FmAttributes = { title: string; description?: string }`:
the declared `title` type is `string`, but at runtime a document whose front
matter lacks a title yields `undefined`, so both fields are modelled as
optional.  The front-matter library composed with `readContentFile` is
modelled as an environment (`Store`) mapping each source path to its parsed
attributes (the content-provisioning step guarantees every referenced path
is readable).
-/

structure FmAttributes where
  title : Option String
  description : Option String

/-- What `fm(readContentFile(path)).attributes` returns for each path. -/
abbrev Store := String → FmAttributes

/-! The `NavItem` type: title, path, and an optional children array, with
the same optional-array encoding as `Route`. -/
mutual
inductive NavItem : Type where
| mk : Option String → String → NavChildren → NavItem
inductive NavChildren : Type where
| none : NavChildren
| some : NavList → NavChildren
inductive NavList : Type where
| nil : NavList
| cons : NavItem → NavList → NavList
end

/-- The `title` field of a navigation item. -/
def NavItem.title : NavItem → Option String
  | .mk t _ _ => t

/-- The `path` field of a navigation item. -/
def NavItem.path : NavItem → String
  | .mk _ p _ => p

/-!
`getNavigation` of `src/pages/[[...slug]].tsx`: for each route build a
NavItem with the document's front-matter title and the normalized path,
recursing into children when the `children` field is present.
-/

mutual
def getNavItem (store : Store) : Route → NavItem
  | .mk p .none =>
      .mk (store p).title (transformFilePathToUrlPath p) .none
  | .mk p (.some cs) =>
      .mk (store p).title (transformFilePathToUrlPath p) (.some (getNavItems store cs))
def getNavItems (store : Store) : RouteList → NavList
  | .nil => .nil
  | .cons r rs => .cons (getNavItem store r) (getNavItems store rs)
end

/-- `getNavigation` (main file, cold cache): one NavItem per top-level
route. -/
def getNavigation (store : Store) (m : Manifest) : NavList :=
  getNavItems store m.routes

/-- The `path` computation of part_001's `getNavItem`: when a parent path
is supplied (and truthy — the empty string is falsy in JS), accumulate
`parentPath + "/" + normalize(sourcePath)`; otherwise use the normalized
source path alone. -/
def navPath1 (parentPath : Option String) (sourcePath : String) : String :=
  match parentPath with
  | Option.some pp =>
      if pp == "" then transformFilePathToUrlPath sourcePath
      else pp ++ "/" ++ transformFilePathToUrlPath sourcePath
  | Option.none => transformFilePathToUrlPath sourcePath

/-!
`getNavigation` of `src/unnamed/part_001`: `getNavItem` takes an optional
`parentPath`, but its recursive call `getNavItem(childRoute)` omits the
argument, and the top-level loop omits it as well.
-/

mutual
def getNavItemPart1 (store : Store) : Route → Option String → NavItem
  | .mk p .none, parentPath =>
      .mk (store p).title (navPath1 parentPath p) .none
  | .mk p (.some cs), parentPath =>
      .mk (store p).title (navPath1 parentPath p) (.some (getNavItemsPart1 store cs))
def getNavItemsPart1 (store : Store) : RouteList → NavList
  | .nil => .nil
  | .cons r rs => .cons (getNavItemPart1 store r Option.none) (getNavItemsPart1 store rs)
end

/-- `getNavigation` (part_001, cold cache). -/
def getNavigationPart1 (store : Store) (m : Manifest) : NavList :=
  getNavItemsPart1 store m.routes

/-!
Shape mirroring between a route tree and a navigation tree: one NavItem per
Route, children present exactly where the Route has children, positionally
(hence with the same count, order and depth).
-/

mutual
def mirrorsRoute : Route → NavItem → Bool
  | .mk _ .none, .mk _ _ .none => true
  | .mk _ (.some cs), .mk _ _ (.some ns) => mirrorsList cs ns
  | _, _ => false
def mirrorsList : RouteList → NavList → Bool
  | .nil, .nil => true
  | .cons r rs, .cons n ns => mirrorsRoute r n && mirrorsList rs ns
  | _, _ => false
end

/-! Pre-order listing of the titles of a navigation tree. -/
mutual
def navTitlesItem : NavItem → List (Option String)
  | .mk t _ .none => [t]
  | .mk t _ (.some ns) => t :: navTitlesList ns
def navTitlesList : NavList → List (Option String)
  | .nil => []
  | .cons n ns => navTitlesItem n ++ navTitlesList ns
end

/-! Pre-order listing of the paths of a navigation tree. -/
mutual
def navPathsItem : NavItem → List String
  | .mk _ p .none => [p]
  | .mk _ p (.some ns) => p :: navPathsList ns
def navPathsList : NavList → List String
  | .nil => []
  | .cons n ns => navPathsItem n ++ navPathsList ns
end

mutual
theorem mirrorsRoute_getNavItem (store : Store) : ∀ (r : Route),
    mirrorsRoute r (getNavItem store r) = true
  | .mk p .none => by
      simp [getNavItem, mirrorsRoute]
  | .mk p (.some cs) => by
      simp [getNavItem, mirrorsRoute, mirrorsList_getNavItems store cs]
theorem mirrorsList_getNavItems (store : Store) : ∀ (rs : RouteList),
    mirrorsList rs (getNavItems store rs) = true
  | .nil => by
      simp [getNavItems, mirrorsList]
  | .cons r rs => by
      simp [getNavItems, mirrorsList, mirrorsRoute_getNavItem store r,
        mirrorsList_getNavItems store rs]
end

/-- Claim C6: for every front-matter environment and manifest, the
navigation tree produced by `getNavigation` mirrors the manifest's route
tree exactly — one NavItem per Route, children present exactly where the
Route has children, with the same count, order and depth. -/
theorem C6_theorem (store : Store) (m : Manifest) :
    mirrorsList m.routes (getNavigation store m) = true :=
  mirrorsList_getNavItems store m.routes

mutual
theorem navTitlesItem_getNavItem (store : Store) : ∀ (r : Route),
    navTitlesItem (getNavItem store r) =
      (preorderPathsRoute r).map (fun p => (store p).title)
  | .mk p .none => by
      simp [getNavItem, navTitlesItem, preorderPathsRoute]
  | .mk p (.some cs) => by
      simp [getNavItem, navTitlesItem, preorderPathsRoute,
        navTitlesList_getNavItems store cs]
theorem navTitlesList_getNavItems (store : Store) : ∀ (rs : RouteList),
    navTitlesList (getNavItems store rs) =
      (preorderPathsList rs).map (fun p => (store p).title)
  | .nil => by
      simp [getNavItems, navTitlesList, preorderPathsList]
  | .cons r rs => by
      simp [getNavItems, navTitlesList, preorderPathsList,
        navTitlesItem_getNavItem store r, navTitlesList_getNavItems store rs]
end

/-- A front-matter environment in which every document lacks a title. -/
def storeNoTitle : Store := fun _ => ⟨Option.none, Option.none⟩

/-- A one-route manifest referencing a document without a title. -/
def manifestOne : Manifest := ⟨["v1"], .cons (.mk "index.md" .none) .nil⟩

/-- Claim C4 is false on the code: for the one-route manifest whose
document lacks a front-matter title, `getNavigation` does not fail — it
returns a navigation item whose title is simply absent (`undefined`); no
`FrontMatterMissingTitleError` exists in the code. -/
theorem C4_counterexample :
    getNavigation storeNoTitle manifestOne =
      .cons (.mk Option.none "" .none) .nil ∧
    navTitlesList (getNavigation storeNoTitle manifestOne) = [Option.none] :=
  ⟨rfl, rfl⟩

/-- Claim C4 (amended): `getNavigation` performs no title validation and
never fails; in pre-order, the titles of the produced navigation items are
exactly the (possibly absent) front-matter titles of the corresponding
routes' documents, so a missing title yields a NavItem with an absent
title rather than an error. -/
theorem C4_amended_theorem (store : Store) (m : Manifest) :
    navTitlesList (getNavigation store m) =
      (preorderPathsList m.routes).map (fun p => (store p).title) :=
  navTitlesList_getNavItems store m.routes

mutual
theorem getNavItemPart1_eq (store : Store) : ∀ (r : Route),
    getNavItemPart1 store r Option.none = getNavItem store r
  | .mk p .none => by
      simp [getNavItemPart1, getNavItem, navPath1]
  | .mk p (.some cs) => by
      simp [getNavItemPart1, getNavItem, navPath1, getNavItemsPart1_eq store cs]
theorem getNavItemsPart1_eq (store : Store) : ∀ (rs : RouteList),
    getNavItemsPart1 store rs = getNavItems store rs
  | .nil => by
      simp [getNavItemsPart1, getNavItems]
  | .cons r rs => by
      simp [getNavItemsPart1, getNavItems, getNavItemPart1_eq store r,
        getNavItemsPart1_eq store rs]
end

mutual
theorem navPathsItem_getNavItem (store : Store) : ∀ (r : Route),
    navPathsItem (getNavItem store r) =
      (preorderPathsRoute r).map transformFilePathToUrlPath
  | .mk p .none => by
      simp [getNavItem, navPathsItem, preorderPathsRoute]
  | .mk p (.some cs) => by
      simp [getNavItem, navPathsItem, preorderPathsRoute,
        navPathsList_getNavItems store cs]
theorem navPathsList_getNavItems (store : Store) : ∀ (rs : RouteList),
    navPathsList (getNavItems store rs) =
      (preorderPathsList rs).map transformFilePathToUrlPath
  | .nil => by
      simp [getNavItems, navPathsList, preorderPathsList]
  | .cons r rs => by
      simp [getNavItems, navPathsList, preorderPathsList,
        navPathsItem_getNavItem store r, navPathsList_getNavItems store rs]
end

/-- Claim C10: in part_001's navigation builder the recursive call and the
top-level call never supply a parent path, so the relative-accumulation
branch is dead: the builder coincides with the main file's parameterless
builder, and every produced NavItem's path is, in pre-order, exactly the
normalizer applied to that route's own source path. -/
theorem C10_theorem :
    (∀ (store : Store) (r : Route),
      getNavItemPart1 store r Option.none = getNavItem store r) ∧
    (∀ (store : Store) (m : Manifest),
      getNavigationPart1 store m = getNavigation store m) ∧
    (∀ (store : Store) (m : Manifest),
      navPathsList (getNavigationPart1 store m) =
        (preorderPathsList m.routes).map transformFilePathToUrlPath) := by
  refine ⟨fun store r => getNavItemPart1_eq store r, fun store m => ?_, fun store m => ?_⟩
  · exact getNavItemsPart1_eq store m.routes
  · rw [getNavigationPart1, getNavItemsPart1_eq store m.routes]
    exact navPathsList_getNavItems store m.routes

/-!
The sanitizer `removeHtmlComments`:
`string.replace(/<!--[\s\S]*?-->/g, "")`.  The global lazy regex scans left
to right; a match starts at an occurrence of `<!--` and extends to the
NEAREST following `-->` (across newlines, since `[\s\S]` matches any
character); scanning resumes after the match; an opener with no following
closer matches nothing and the text is left as it is.
-/

/-- The HTML comment opener `<!--`. -/
def openTag : List Char := ['<', '!', '-', '-']

/-- The HTML comment closer `-->`. -/
def closeTag : List Char := ['-', '-', '>']

/-- Scan for the first occurrence of the comment closer; on a hit, return
everything after it. -/
def findClose : List Char → Option (List Char)
  | [] => Option.none
  | c :: cs =>
      if startsWithL (c :: cs) closeTag then Option.some (List.drop 3 (c :: cs))
      else findClose cs

/-- The comment-stripping scan, with explicit fuel (one unit per consumed
position; the input length suffices, as each step consumes at least one
character). -/
def removeHtmlCommentsAux : Nat → List Char → List Char
  | 0, l => l
  | Nat.succ _, [] => []
  | Nat.succ n, c :: cs =>
      if startsWithL (c :: cs) openTag then
        match findClose (List.drop 4 (c :: cs)) with
        | Option.some rest => removeHtmlCommentsAux n rest
        | Option.none => c :: cs
      else c :: removeHtmlCommentsAux n cs

/-- Comment stripping on char lists. -/
def removeHtmlCommentsL (l : List Char) : List Char :=
  removeHtmlCommentsAux l.length l

/-- `removeHtmlComments` of `src/pages/[[...slug]].tsx`. -/
def removeHtmlComments (s : String) : String :=
  String.mk (removeHtmlCommentsL s.data)

example : removeHtmlComments "before<!-- note -->after" = "beforeafter" := by decide
example : removeHtmlComments "a<!-- x\n y -->b<!--c-->d" = "abd" := by decide
example : removeHtmlComments "no close <!-- stays" = "no close <!-- stays" := by decide

/-- A successful prefix match never inspects more than the pattern's length
of the list. -/
theorem startsWithL_iff : ∀ (pat l : List Char),
    startsWithL l pat = true ↔ l.take pat.length = pat
  | [], l => by simp [startsWithL]
  | p :: ps, [] => by simp [startsWithL]
  | p :: ps, c :: cs => by
      simp [startsWithL, startsWithL_iff ps cs, List.take]

/-- A prefix match at a position strictly inside `a` sees the same window
whether the rest of the pattern's own text or anything else follows, as
long as the next characters are the pattern's proper prefix. -/
theorem startsWithL_append_congr (pat a r : List Char) (ha : 1 ≤ a.length) :
    startsWithL (a ++ pat ++ r) pat =
      startsWithL (a ++ pat.take (pat.length - 1)) pat := by
  have htake : (a ++ pat ++ r).take pat.length =
      (a ++ pat.take (pat.length - 1)).take pat.length := by
    rw [List.append_assoc, List.take_append_eq_append_take,
      List.take_append_eq_append_take, List.take_append_eq_append_take,
      List.take_take]
    have hz : pat.length - a.length - pat.length = 0 := by omega
    have hmin : min (pat.length - a.length) (pat.length - 1) =
        pat.length - a.length := by omega
    rw [hz, hmin]
    simp
  have hiff : (startsWithL (a ++ pat ++ r) pat = true) ↔
      (startsWithL (a ++ pat.take (pat.length - 1)) pat = true) := by
    rw [startsWithL_iff, startsWithL_iff, htake]
  cases h1 : startsWithL (a ++ pat ++ r) pat <;>
    cases h2 : startsWithL (a ++ pat.take (pat.length - 1)) pat <;>
    simp_all

/-- Scanning `c ++ --> ++ b` for a closer, where `c` hides no closer even
when padded by the closer's own proper prefix, lands exactly on the
appended closer. -/
theorem findClose_append (c b : List Char)
    (hc : containsSub closeTag (c ++ closeTag.take 2) = false) :
    findClose (c ++ closeTag ++ b) = Option.some b := by
  induction c with
  | nil => simp [findClose, closeTag, startsWithL]
  | cons x xs ih =>
      have hc' : (startsWithL (x :: (xs ++ closeTag.take 2)) closeTag
          || containsSub closeTag (xs ++ closeTag.take 2)) = false := by
        have hcc : containsSub closeTag (x :: (xs ++ closeTag.take 2)) = false := by
          simpa using hc
        simpa [containsSub] using hcc
      have h1 : startsWithL (x :: (xs ++ closeTag.take 2)) closeTag = false := by
        cases hx : startsWithL (x :: (xs ++ closeTag.take 2)) closeTag <;> simp_all
      have h2 : containsSub closeTag (xs ++ closeTag.take 2) = false := by
        cases hx : containsSub closeTag (xs ++ closeTag.take 2) <;> simp_all
      have hsw : startsWithL ((x :: xs) ++ closeTag ++ b) closeTag = false := by
        rw [startsWithL_append_congr closeTag (x :: xs) b (by simp)]
        simpa using h1
      have hcons : (x :: xs) ++ closeTag ++ b = x :: (xs ++ closeTag ++ b) := by
        simp
      rw [hcons] at hsw ⊢
      rw [findClose, hsw]
      simp only [Bool.false_eq_true, if_false]
      exact ih h2

/-- A successful prefix match needs the list to be at least as long as the
pattern. -/
theorem startsWithL_length (pat l : List Char) (h : startsWithL l pat = true) :
    pat.length ≤ l.length := by
  have ht := (startsWithL_iff pat l).mp h
  have hlen := congrArg List.length ht
  simp [List.length_take] at hlen
  omega

/-- A closer hit consumes at least the closer itself. -/
theorem findClose_length : ∀ (l r : List Char),
    findClose l = Option.some r → r.length + 3 ≤ l.length
  | [], r => by simp [findClose]
  | c :: cs, r => by
      rw [findClose]
      by_cases hsw : startsWithL (c :: cs) closeTag = true
      · rw [if_pos hsw]
        intro h
        have h3 : 3 ≤ (c :: cs).length := by
          have hl := startsWithL_length closeTag (c :: cs) hsw
          simpa [closeTag] using hl
        have hr : r = List.drop 3 (c :: cs) := by
          injection h with h
          exact h.symm
        subst hr
        simp only [List.length_drop]
        omega
      · rw [if_neg hsw]
        intro h
        have := findClose_length cs r h
        simp only [List.length_cons]
        omega

/-- The scan result does not depend on the fuel, as long as the fuel covers
the input length. -/
theorem removeHtmlCommentsAux_fuel (n : Nat) : ∀ (l : List Char), l.length ≤ n →
    removeHtmlCommentsAux n l = removeHtmlCommentsL l := by
  induction n using Nat.strong_induction_on with
  | _ n ih =>
    intro l hl
    cases n with
    | zero =>
        cases l with
        | nil => rfl
        | cons c cs => simp at hl
    | succ n =>
        cases l with
        | nil => rfl
        | cons c cs =>
            have hcs : cs.length ≤ n := by
              simp at hl
              omega
            rw [removeHtmlCommentsL]
            simp only [List.length_cons]
            rw [removeHtmlCommentsAux, removeHtmlCommentsAux]
            by_cases hsw : startsWithL (c :: cs) openTag = true
            · rw [if_pos hsw, if_pos hsw]
              cases hfc : findClose (List.drop 4 (c :: cs)) with
              | none => rfl
              | some rest =>
                  have hrest : rest.length + 3 ≤ (List.drop 4 (c :: cs)).length :=
                    findClose_length _ rest hfc
                  simp only [List.length_drop, List.length_cons] at hrest
                  show removeHtmlCommentsAux n rest = removeHtmlCommentsAux cs.length rest
                  rw [ih n (Nat.lt_succ_self n) rest (by omega),
                    ih cs.length (Nat.lt_succ_of_le hcs) rest (by omega)]
            · rw [if_neg hsw, if_neg hsw]
              rw [ih n (Nat.lt_succ_self n) cs hcs]
              rfl

/-- Text containing no comment opener passes through the scan unchanged. -/
theorem removeHtmlCommentsAux_no_open : ∀ (n : Nat) (l : List Char), l.length ≤ n →
    containsSub openTag l = false → removeHtmlCommentsAux n l = l
  | 0, _, _, _ => rfl
  | Nat.succ _, [], _, _ => rfl
  | Nat.succ n, c :: cs, hl, hco => by
      have hc' : (startsWithL (c :: cs) openTag || containsSub openTag cs) = false := by
        simpa [containsSub] using hco
      have h1 : startsWithL (c :: cs) openTag = false := by
        cases hx : startsWithL (c :: cs) openTag <;> simp_all
      have h2 : containsSub openTag cs = false := by
        cases hx : containsSub openTag cs <;> simp_all
      have hlen : cs.length ≤ n := by
        simp at hl
        omega
      rw [removeHtmlCommentsAux, h1]
      simp only [Bool.false_eq_true, if_false]
      rw [removeHtmlCommentsAux_no_open n cs hlen h2]

/-- `removeHtmlComments` leaves opener-free text unchanged. -/
theorem removeHtmlCommentsL_no_open (l : List Char)
    (h : containsSub openTag l = false) : removeHtmlCommentsL l = l :=
  removeHtmlCommentsAux_no_open l.length l (Nat.le_refl _) h

/-- Stripping a comment that starts at the head of the input: the text up
to and including the nearest closer is removed and the scan continues with
what follows. -/
theorem removeHtmlCommentsL_open (c b : List Char)
    (hc : containsSub closeTag (c ++ closeTag.take 2) = false) :
    removeHtmlCommentsL ('<' :: '!' :: '-' :: '-' :: (c ++ closeTag ++ b)) =
      removeHtmlCommentsL b := by
  rw [removeHtmlCommentsL]
  simp only [List.length_cons]
  rw [removeHtmlCommentsAux]
  have hsw : startsWithL ('<' :: '!' :: '-' :: '-' :: (c ++ closeTag ++ b)) openTag = true := by
    simp [startsWithL, openTag]
  rw [hsw]
  simp only [if_true]
  have hdrop : List.drop 4 ('<' :: '!' :: '-' :: '-' :: (c ++ closeTag ++ b)) =
      c ++ closeTag ++ b := rfl
  rw [hdrop, findClose_append c b hc]
  exact removeHtmlCommentsAux_fuel _ b (by simp [closeTag]; omega)

/-- A position that does not begin a comment is copied to the output and
the scan continues behind it. -/
theorem removeHtmlCommentsL_cons_of_not_open (x : Char) (l : List Char)
    (h : startsWithL (x :: l) openTag = false) :
    removeHtmlCommentsL (x :: l) = x :: removeHtmlCommentsL l := by
  rw [removeHtmlCommentsL]
  simp only [List.length_cons]
  rw [removeHtmlCommentsAux, h]
  simp only [Bool.false_eq_true, if_false]
  rfl

/-- Removing one full comment range: if `a` hides no opener (even padded by
the opener's proper prefix) and `c` hides no closer (even padded by the
closer's proper prefix), then the sanitizer deletes exactly the range from
the opener to the nearest closer and continues with `b`, leaving `a`
unchanged. -/
theorem removeHtmlCommentsL_comment : ∀ (a c b : List Char),
    containsSub openTag (a ++ openTag.take 3) = false →
    containsSub closeTag (c ++ closeTag.take 2) = false →
    removeHtmlCommentsL (a ++ openTag ++ c ++ closeTag ++ b) =
      a ++ removeHtmlCommentsL b := by
  intro a
  induction a with
  | nil =>
      intro c b _ hc
      have hshape : ([] : List Char) ++ openTag ++ c ++ closeTag ++ b =
          '<' :: '!' :: '-' :: '-' :: (c ++ closeTag ++ b) := by
        simp [openTag]
      rw [hshape, removeHtmlCommentsL_open c b hc]
      simp
  | cons x xs ih =>
      intro c b ha hc
      have ha' : (startsWithL (x :: (xs ++ openTag.take 3)) openTag
          || containsSub openTag (xs ++ openTag.take 3)) = false := by
        have hcc : containsSub openTag (x :: (xs ++ openTag.take 3)) = false := by
          simpa using ha
        simpa [containsSub] using hcc
      have h1 : startsWithL (x :: (xs ++ openTag.take 3)) openTag = false := by
        cases hx : startsWithL (x :: (xs ++ openTag.take 3)) openTag <;> simp_all
      have h2 : containsSub openTag (xs ++ openTag.take 3) = false := by
        cases hx : containsSub openTag (xs ++ openTag.take 3) <;> simp_all
      have hsw : startsWithL (x :: (xs ++ openTag ++ c ++ closeTag ++ b)) openTag = false := by
        have hcg := startsWithL_append_congr openTag (x :: xs) (c ++ closeTag ++ b) (by simp)
        have e1 : (x :: xs) ++ openTag ++ (c ++ closeTag ++ b) =
            x :: (xs ++ openTag ++ c ++ closeTag ++ b) := by simp
        have e2 : (x :: xs) ++ openTag.take 3 = x :: (xs ++ openTag.take 3) := by simp
        have hol : openTag.length - 1 = 3 := by decide
        rw [hol] at hcg
        rw [e1, e2] at hcg
        rw [hcg]
        exact h1
      have hshape : (x :: xs) ++ openTag ++ c ++ closeTag ++ b =
          x :: (xs ++ openTag ++ c ++ closeTag ++ b) := by simp
      rw [hshape, removeHtmlCommentsL_cons_of_not_open x _ hsw, ih c b h2 hc]
      simp

/-- Claim C8: the sanitizer removes every HTML-style comment range (an
opener up to the nearest following closer, across any characters including
newlines) and leaves all other text unchanged; in particular the body
`before<!-- note -->after` sanitizes to `beforeafter`. -/
theorem C8_theorem :
    (∀ a c b : List Char,
      containsSub openTag (a ++ openTag.take 3) = false →
      containsSub closeTag (c ++ closeTag.take 2) = false →
      removeHtmlCommentsL (a ++ openTag ++ c ++ closeTag ++ b) =
        a ++ removeHtmlCommentsL b) ∧
    (∀ l : List Char, containsSub openTag l = false → removeHtmlCommentsL l = l) ∧
    removeHtmlComments "before<!-- note -->after" = "beforeafter" :=
  ⟨removeHtmlCommentsL_comment, removeHtmlCommentsL_no_open, by decide⟩

/-- Witness for claim C8: one concrete comment range removed between
untouched text. -/
theorem C8_witness :
    containsSub openTag ("x".data ++ openTag.take 3) = false ∧
    containsSub closeTag (" note ".data ++ closeTag.take 2) = false ∧
    removeHtmlCommentsL ("x".data ++ openTag ++ " note ".data ++ closeTag ++ "y".data) =
      "x".data ++ removeHtmlCommentsL "y".data :=
  ⟨by decide, by decide,
    C8_theorem.1 "x".data " note ".data "y".data (by decide) (by decide)⟩

end CoderDocs
